import Mathlib

/-!
Verification of the Panchangam calculation engine
(`backend/app/services/hindu_calendar.py`, `backend/app/services/astronomical.py`,
`backend/app/utils/constants.py`).

Machine reals (Python floats) are modelled by `ℚ` for the executable parts of
the engine and by `ℝ` where the source calls transcendental functions
(`math.sin`, `math.asin`, ...).  Python's `%` on nonnegative-modulus operands
is modelled by `pymod`, Python's `int()` truncation on nonnegative values by
`Int.floor`, a raised-and-caught exception by `Option`.
-/

/-- Python `x % y` (sign follows `y`; here used only with `y > 0`):
`x - y * floor (x / y)`. -/
def pymod (x y : ℚ) : ℚ := x - y * ⌊x / y⌋

theorem pymod_nonneg (x : ℚ) {y : ℚ} (hy : 0 < y) : 0 ≤ pymod x y := by
  have h := Int.floor_le (x / y)
  have := mul_le_mul_of_nonneg_left h (le_of_lt hy)
  rw [mul_div_cancel₀ _ (ne_of_gt hy)] at this
  simpa [pymod] using this

theorem pymod_lt (x : ℚ) {y : ℚ} (hy : 0 < y) : pymod x y < y := by
  have h := Int.lt_floor_add_one (x / y)
  have := mul_lt_mul_of_pos_left h hy
  rw [mul_div_cancel₀ _ (ne_of_gt hy)] at this
  have h2 : x < y * ⌊x / y⌋ + y := by ring_nf; ring_nf at this; linarith
  simp only [pymod]
  linarith

/-! ## `unwrap_angles` (hindu_calendar.py lines 21-28)

The Python loop mutates `result` in place; `result[i-1]` has already been
rewritten when `result[i]` is compared against it, so the recursion carries
the previous *output* element. -/

/-- Loop body of `unwrap_angles`: `prev` is the already-written previous
output element; each remaining input `a` becomes `a + 360` when `a < prev`. -/
def unwrapFrom (prev : ℚ) : List ℚ → List ℚ
  | [] => []
  | a :: rest =>
    let b := if a < prev then a + 360 else a
    b :: unwrapFrom b rest

/-- `unwrap_angles`: add 360 to an element whenever it is smaller than the
previous (already adjusted) element. -/
def unwrap_angles : List ℚ → List ℚ
  | [] => []
  | a :: rest => a :: unwrapFrom a rest

theorem unwrapFrom_chain (l : List ℚ) (prev : ℚ)
    (hl : List.Chain' (fun u v : ℚ => u ≤ v) l)
    (hhead : ∀ a : ℚ, l.head? = some a → prev ≤ a + 360) :
    List.Chain' (fun u v : ℚ => u ≤ v) (prev :: unwrapFrom prev l) := by
  induction l generalizing prev with
  | nil => simp [unwrapFrom]
  | cons a rest ih =>
    have hpa : prev ≤ a + 360 := hhead a rfl
    have hrest : List.Chain' (fun u v : ℚ => u ≤ v) rest := hl.tail
    simp only [unwrapFrom]
    by_cases hc : a < prev
    · simp only [if_pos hc]
      refine List.chain'_cons.mpr ⟨hpa, ?_⟩
      apply ih (a + 360) hrest
      intro c hc2
      cases rest with
      | nil => simp at hc2
      | cons c2 rest2 =>
        simp only [List.head?] at hc2
        cases hc2
        have hac := (List.chain'_cons.mp hl).1
        linarith
    · simp only [if_neg hc]
      push_neg at hc
      refine List.chain'_cons.mpr ⟨hc, ?_⟩
      apply ih a hrest
      intro c hc2
      cases rest with
      | nil => simp at hc2
      | cons c2 rest2 =>
        simp only [List.head?] at hc2
        cases hc2
        have hac := (List.chain'_cons.mp hl).1
        linarith

theorem unwrapFrom_chain_split (t1 : List ℚ) (prev : ℚ) (l2 : List ℚ)
    (h1 : List.Chain' (fun u v : ℚ => u ≤ v) (prev :: t1))
    (h2 : List.Chain' (fun u v : ℚ => u ≤ v) l2)
    (hb1 : ∀ z ∈ prev :: t1, z < 360)
    (hb2 : ∀ z ∈ l2, 0 ≤ z) :
    List.Chain' (fun u v : ℚ => u ≤ v) (prev :: unwrapFrom prev (t1 ++ l2)) := by
  induction t1 generalizing prev with
  | nil =>
    simp only [List.nil_append]
    apply unwrapFrom_chain l2 prev h2
    intro a ha
    have hz : 0 ≤ a := hb2 a (by cases l2 with
      | nil => simp at ha
      | cons c' rest' => simp only [List.head?] at ha; cases ha; exact List.mem_cons_self _ _)
    have hp : prev < 360 := hb1 prev (List.mem_cons_self _ _)
    linarith
  | cons b t1' ih =>
    have hpb : prev ≤ b := (List.chain'_cons.mp h1).1
    simp only [List.cons_append, unwrapFrom]
    have hnb : ¬ b < prev := not_lt.mpr hpb
    simp only [if_neg hnb]
    refine List.chain'_cons.mpr ⟨hpb, ?_⟩
    apply ih b (List.chain'_cons.mp h1).2
    intro z hz
    exact hb1 z (List.mem_cons_of_mem _ hz)

/-- C2 counterexample: on the all-in-range input `[350, 340, 330]` (two
consecutive decreases) the unwrapped list is `[350, 700, 690]`, which is not
non-decreasing. -/
theorem unwrap_angles_not_monotone_cex :
    ¬ List.Chain' (fun u v : ℚ => u ≤ v) (unwrap_angles [350, 340, 330]) := by
  norm_num [unwrap_angles, unwrapFrom, List.chain'_cons]

/-- C2 (amended): for an input of angles in `[0, 360)` with at most one
descent (a sorted run followed by a sorted run, i.e. a sequence wrapping at
360° at most once), the list returned by `unwrap_angles` is non-decreasing. -/
theorem unwrap_angles_monotone (l1 l2 : List ℚ)
    (h1 : List.Chain' (fun u v : ℚ => u ≤ v) l1)
    (h2 : List.Chain' (fun u v : ℚ => u ≤ v) l2)
    (hb : ∀ z ∈ l1 ++ l2, 0 ≤ z ∧ z < 360) :
    List.Chain' (fun u v : ℚ => u ≤ v) (unwrap_angles (l1 ++ l2)) := by
  cases l1 with
  | nil =>
    simp only [List.nil_append]
    cases l2 with
    | nil => simp [unwrap_angles]
    | cons a rest =>
      simp only [unwrap_angles]
      have : List.Chain' (fun u v : ℚ => u ≤ v) (a :: unwrapFrom a (rest ++ [])) := by
        apply unwrapFrom_chain_split rest a [] h2 (by simp)
        · intro z hz
          exact (hb z (by simpa using hz)).2
        · intro z hz
          simp at hz
      simpa using this
  | cons a t1 =>
    simp only [List.cons_append, unwrap_angles]
    apply unwrapFrom_chain_split t1 a l2 h1 h2
    · intro z hz
      refine (hb z ?_).2
      simp only [List.cons_append, List.mem_cons, List.mem_append] at hz ⊢
      tauto
    · intro z hz
      refine (hb z ?_).1
      simp only [List.cons_append, List.mem_cons, List.mem_append]
      tauto

/-- Witness for the amended C2 at a concrete wrapped input. -/
theorem unwrap_angles_monotone_witness :
    List.Chain' (fun u v : ℚ => u ≤ v) (unwrap_angles ([300, 350] ++ [5, 15])) :=
  unwrap_angles_monotone [300, 350] [5, 15]
    (by norm_num [List.chain'_cons]) (by norm_num [List.chain'_cons])
    (by norm_num)

/-! ## Karana (constants.py lines 29-32, hindu_calendar.py lines 385-456) -/

/-- `KARANA_NAMES`: 7 movable names (indices 0-6) then 4 fixed names
(indices 7-10). -/
def KARANA_NAMES : List String :=
  ["Bava", "Balava", "Kaulava", "Taitila", "Garija", "Vanija", "Vishti",
   "Shakuni", "Chatushpada", "Naga", "Kimstughno"]

/-- `lunar_phase`: `(lunar_longitude - solar_longitude) % 360`
(hindu_calendar.py lines 45-50 and 403-406). -/
def lunar_phase (moonLong sunLong : ℚ) : ℚ := pymod (moonLong - sunLong) 360

/-- `karana_number = int(lunar_phase / 6) + 1`, wrapped back to 1 above 60
(hindu_calendar.py lines 410-412). -/
def karana_number (phase : ℚ) : ℤ :=
  let n := ⌊phase / 6⌋ + 1
  if n > 60 then 1 else n

/-- Karana name index: movable cycle `(number - 1) % 7` for numbers up to 56,
fixed names `7 + (number - 57)` above, then clamped to
`len(KARANA_NAMES) - 1` (hindu_calendar.py lines 415-423). -/
def karana_index (n : ℤ) : ℤ :=
  let i := if n ≤ 56 then (n - 1) % 7 else 7 + (n - 57)
  min i ((KARANA_NAMES.length : ℤ) - 1)

theorem lunar_phase_nonneg (m s : ℚ) : 0 ≤ lunar_phase m s :=
  pymod_nonneg _ (by norm_num)

theorem lunar_phase_lt (m s : ℚ) : lunar_phase m s < 360 :=
  pymod_lt _ (by norm_num)

theorem karana_number_eq (phase : ℚ) (h0 : 0 ≤ phase) (h1 : phase < 360) :
    karana_number phase = ⌊phase / 6⌋ + 1 := by
  have hfl : ⌊phase / 6⌋ < 60 := by
    apply Int.floor_lt.mpr
    push_cast
    linarith
  have hgt : ¬ (⌊phase / 6⌋ + 1 > 60) := by omega
  simp [karana_number, hgt]

theorem karana_number_bounds (phase : ℚ) (h0 : 0 ≤ phase) (h1 : phase < 360) :
    1 ≤ karana_number phase ∧ karana_number phase ≤ 60 := by
  rw [karana_number_eq phase h0 h1]
  have hfl : ⌊phase / 6⌋ < 60 := by
    apply Int.floor_lt.mpr
    push_cast
    linarith
  have h2 : (0 : ℤ) ≤ ⌊phase / 6⌋ := by
    apply Int.floor_nonneg.mpr
    positivity
  omega

/-- C7: the half-lunar-day step number computed from any pair of longitudes
lies in `[1, 60]`; its name index is in bounds for the 11-entry
`KARANA_NAMES` table; step numbers up to 56 map through the 7-entry movable
cycle as `(number - 1) % 7` and step numbers 57-60 map to the fixed-name
indices `7 + (number - 57)`, i.e. 7-10. -/
theorem karana_mapping (m s : ℚ) :
    1 ≤ karana_number (lunar_phase m s) ∧
    karana_number (lunar_phase m s) ≤ 60 ∧
    0 ≤ karana_index (karana_number (lunar_phase m s)) ∧
    karana_index (karana_number (lunar_phase m s)) < (KARANA_NAMES.length : ℤ) ∧
    (karana_number (lunar_phase m s) ≤ 56 →
      karana_index (karana_number (lunar_phase m s)) =
        (karana_number (lunar_phase m s) - 1) % 7) ∧
    (57 ≤ karana_number (lunar_phase m s) →
      karana_index (karana_number (lunar_phase m s)) =
        7 + (karana_number (lunar_phase m s) - 57)) := by
  obtain ⟨hlo, hhi⟩ :=
    karana_number_bounds _ (lunar_phase_nonneg m s) (lunar_phase_lt m s)
  set n := karana_number (lunar_phase m s) with hn
  have hlen : (KARANA_NAMES.length : ℤ) = 11 := by norm_num [KARANA_NAMES]
  refine ⟨hlo, hhi, ?_, ?_, ?_, ?_⟩
  · by_cases h : n ≤ 56
    · simp only [karana_index, if_pos h, hlen]
      omega
    · simp only [karana_index, if_neg h, hlen]
      omega
  · rw [hlen]
    by_cases h : n ≤ 56
    · simp only [karana_index, if_pos h, hlen]
      omega
    · simp only [karana_index, if_neg h, hlen]
      omega
  · intro h
    simp only [karana_index, if_pos h, hlen]
    omega
  · intro h
    have hng : ¬ n ≤ 56 := by omega
    simp only [karana_index, if_neg hng, hlen]
    omega

/-- Witness for C7 at concrete longitudes: phase 60° gives step number 11,
movable-cycle index `(11 - 1) % 7 = 3`. -/
theorem karana_mapping_witness :
    karana_number (lunar_phase 100 40) ≤ 56 ∧
    karana_index (karana_number (lunar_phase 100 40)) =
      (karana_number (lunar_phase 100 40) - 1) % 7 :=
  ⟨by norm_num [karana_number, lunar_phase, pymod],
   (karana_mapping 100 40).2.2.2.2.1 (by norm_num [karana_number, lunar_phase, pymod])⟩

/-- Karana period start instant (hindu_calendar.py lines 429-437): time of
entering the current 6° step, at the assumed constant lunar rate of 13.2°
per day. -/
def karana_start_jd (jd m s : ℚ) : ℚ :=
  let phase := lunar_phase m s
  let n := karana_number phase
  let start_phase := ((n : ℚ) - 1) * 6
  let degrees_since_start := phase - start_phase
  let degrees_since_start2 :=
    if degrees_since_start < 0 then degrees_since_start + 360
    else degrees_since_start
  let hours_since_start := degrees_since_start2 / 13.2 * 24
  jd - hours_since_start / 24

/-- Karana period end instant (hindu_calendar.py lines 439-446). -/
def karana_end_jd (jd m s : ℚ) : ℚ :=
  let phase := lunar_phase m s
  let n := karana_number phase
  let end_phase := (n : ℚ) * 6
  let degrees_to_end := end_phase - phase
  let degrees_to_end2 :=
    if degrees_to_end ≤ 0 then degrees_to_end + 360 else degrees_to_end
  let hours_to_end := degrees_to_end2 / 13.2 * 24
  jd + hours_to_end / 24

/-- C9: for every input instant and every pair of longitudes, the karana
period constructed by `calculate_karana` has its start strictly before its
end: degrees-since-start is nonnegative and degrees-to-end is strictly
positive, so at the constant positive lunar rate the period is never
degenerate and never has negative duration. -/
theorem karana_period_start_lt_end (jd m s : ℚ) :
    karana_start_jd jd m s < karana_end_jd jd m s := by
  have h0 := lunar_phase_nonneg m s
  have h1 := lunar_phase_lt m s
  set phase := lunar_phase m s with hphase
  have hne := karana_number_eq phase h0 h1
  have hfl1 : (⌊phase / 6⌋ : ℚ) ≤ phase / 6 := Int.floor_le _
  have hfl2 : phase / 6 < (⌊phase / 6⌋ : ℚ) + 1 := Int.lt_floor_add_one _
  have hdss : 0 ≤ phase - ((karana_number phase : ℚ) - 1) * 6 := by
    rw [hne]
    push_cast
    nlinarith
  have hdte : 0 < (karana_number phase : ℚ) * 6 - phase := by
    rw [hne]
    push_cast
    nlinarith
  simp only [karana_start_jd, karana_end_jd, ← hphase]
  rw [if_neg (not_lt.mpr hdss), if_neg (not_le.mpr hdte)]
  have hstart : jd - (phase - ((karana_number phase : ℚ) - 1) * 6) / 13.2 * 24 / 24 ≤ jd := by
    have : 0 ≤ (phase - ((karana_number phase : ℚ) - 1) * 6) / 13.2 * 24 / 24 := by
      positivity
    linarith
  have hend : jd < jd + ((karana_number phase : ℚ) * 6 - phase) / 13.2 * 24 / 24 := by
    have : 0 < ((karana_number phase : ℚ) * 6 - phase) / 13.2 * 24 / 24 := by
      positivity
    linarith
  linarith

/-! ## Inverse Lagrange interpolation (hindu_calendar.py lines 30-43)

`total += numer * x[i] / denom` where `numer` and `denom` accumulate the
products over `j != i`; the loops over `range(len(x))` become sums/products
over `Finset.range x.length`. -/

/-- `inverse_lagrange x y ya`: the inverse-Lagrange sum
`Σ_i x_i · Π_{j≠i} (ya - y_j)/(y_i - y_j)`, implemented exactly as the
source accumulates it (`numer * x[i] / denom`). -/
def inverse_lagrange (x y : List ℚ) (ya : ℚ) : ℚ :=
  ∑ i ∈ Finset.range x.length,
    (∏ j ∈ (Finset.range x.length).erase i, (ya - y.getD j 0)) * x.getD i 0 /
      ∏ j ∈ (Finset.range x.length).erase i, (y.getD i 0 - y.getD j 0)

/-- C1: for sample offsets `x` whose sampled angles `y` are pairwise distinct
and lie on a line `y i = a + r * x i` with rate `r ≠ 0` (at least two
samples), `inverse_lagrange x y ya` returns exactly `(ya - a) / r`, the
analytic crossing time of the target angle `ya`: the inverse Lagrange sum
reproduces a degree-1 angle function exactly for every target. -/
theorem inverse_lagrange_linear_exact (x y : List ℚ) (a r ya : ℚ)
    (hlen : y.length = x.length) (hn : 2 ≤ x.length) (hr : r ≠ 0)
    (hline : ∀ i, i < x.length → y.getD i 0 = a + r * x.getD i 0)
    (hdist : ∀ i, i < x.length → ∀ j, j < x.length → i ≠ j →
      y.getD i 0 ≠ y.getD j 0) :
    inverse_lagrange x y ya = (ya - a) / r := by
  classical
  set n := x.length with hnn
  set v : ℕ → ℚ := fun i => y.getD i 0 with hv
  set f : ℕ → ℚ := fun i => x.getD i 0 with hf
  have hvs : Set.InjOn v (Finset.range n) := by
    intro i hi j hj hij
    by_contra hne
    exact hdist i (by simpa using hi) j (by simpa using hj) hne hij
  set g : Polynomial ℚ := Polynomial.C r⁻¹ * (Polynomial.X - Polynomial.C a)
    with hg
  have hdeg : g.degree < (Finset.range n).card := by
    have h1 : g.degree ≤ 1 := by
      refine le_trans (Polynomial.degree_mul_le _ _) ?_
      have hc : (Polynomial.C r⁻¹ : Polynomial ℚ).degree ≤ 0 :=
        Polynomial.degree_C_le
      have hx : (Polynomial.X - Polynomial.C a : Polynomial ℚ).degree = 1 :=
        Polynomial.degree_X_sub_C a
      calc (Polynomial.C r⁻¹ : Polynomial ℚ).degree +
          (Polynomial.X - Polynomial.C a : Polynomial ℚ).degree
          ≤ 0 + 1 := add_le_add hc (le_of_eq hx)
        _ = 1 := by norm_num
    refine lt_of_le_of_lt h1 ?_
    rw [Finset.card_range]
    exact_mod_cast lt_of_lt_of_le one_lt_two hn
  have hg_eval : ∀ i ∈ Finset.range n, Polynomial.eval (v i) g = f i := by
    intro i hi
    have hl := hline i (Finset.mem_range.mp hi)
    have : v i = a + r * f i := hl
    simp only [hg, Polynomial.eval_mul, Polynomial.eval_C, Polynomial.eval_sub,
      Polynomial.eval_X, this]
    field_simp
  have key : Lagrange.interpolate (Finset.range n) v f = g := by
    have h2 :=
      Lagrange.eq_interpolate (f := g) (v := v) hvs hdeg
    rw [h2]
    simp only [Lagrange.interpolate_apply]
    exact Finset.sum_congr rfl fun i hi => by rw [hg_eval i hi]
  have heval : inverse_lagrange x y ya =
      Polynomial.eval ya (Lagrange.interpolate (Finset.range n) v f) := by
    simp only [Lagrange.interpolate_apply, Polynomial.eval_finset_sum,
      Polynomial.eval_mul, Polynomial.eval_C]
    unfold inverse_lagrange
    refine Finset.sum_congr rfl fun i hi => ?_
    have hb : Polynomial.eval ya (Lagrange.basis (Finset.range n) v i) =
        ∏ j ∈ (Finset.range n).erase i, ((v i - v j)⁻¹ * (ya - v j)) := by
      simp only [Lagrange.basis, Polynomial.eval_prod, Lagrange.basisDivisor,
        Polynomial.eval_mul, Polynomial.eval_C, Polynomial.eval_sub,
        Polynomial.eval_X]
    rw [hb, Finset.prod_mul_distrib, Finset.prod_inv_distrib, div_eq_mul_inv]
    ring
  rw [heval, key]
  simp only [hg, Polynomial.eval_mul, Polynomial.eval_C, Polynomial.eval_sub,
    Polynomial.eval_X]
  rw [div_eq_mul_inv]
  ring

/-- Witness for C1: offsets `[1/4, 1/2, 3/4, 1]`, angles on the line
`y = 2 + 12·x`, target `ya = 9`; the projected offset is `(9 - 2)/12`. -/
theorem inverse_lagrange_linear_exact_witness :
    inverse_lagrange [1/4, 1/2, 3/4, 1] [5, 8, 11, 14] 9 = (9 - 2) / 12 :=
  inverse_lagrange_linear_exact [1/4, 1/2, 3/4, 1] [5, 8, 11, 14] 2 12 9
    rfl (by norm_num) (by norm_num)
    (by intro i hi
        norm_num at hi
        interval_cases i <;> norm_num)
    (by intro i hi j hj hne
        norm_num at hi hj
        interval_cases i <;> interval_cases j <;> simp_all)

/-! ## Period aggregation (hindu_calendar.py lines 688-729 and 814-823)

A period record carries exactly the `(name, start, end)` data used by the
aggregator's dedup key `f"{name}_{start}_{end}"` (names and ISO times in the
repository contain no underscore, so the key is injective on these triples).
Instants are JD values in `ℚ`. -/

/-- The `(name, start, end)` content of one period dictionary. -/
structure Period where
  name : String
  start : ℚ
  end_ : ℚ
deriving DecidableEq, Repr

/-- `periods_overlap_with_hindu_day`: `period_start < hindu_day_end and
period_end > hindu_day_start` (hindu_calendar.py line 696). -/
def periods_overlap_with_hindu_day (p : Period) (hds hde : ℚ) : Bool :=
  decide (p.start < hde) && decide (p.end_ > hds)

/-- `get_overlapping_periods` (hindu_calendar.py lines 700-729): keep the
overlapping candidates, dropping a period whose dedup key was already seen
(the seen set is exactly the accumulated list), then sort ascending by
start. -/
def get_overlapping_periods (candidates : List Period) (hds hde : ℚ) :
    List Period :=
  let all_periods := candidates.foldl
    (fun acc p =>
      if periods_overlap_with_hindu_day p hds hde = true ∧ p ∉ acc
      then acc ++ [p] else acc) []
  List.insertionSort (fun p q => p.start ≤ q.start) all_periods

/-- Tithi-list fallback (hindu_calendar.py lines 814-823): when the filtered
tithi list is empty, the period recomputed at the requested day's JD is
returned without any overlap check. -/
def aggregate_tithis (candidates : List Period) (center : Period)
    (hds hde : ℚ) : List Period :=
  let tithis := get_overlapping_periods candidates hds hde
  if tithis = [] then [center] else tithis

theorem collect_mem (hds hde : ℚ) (l : List Period) :
    ∀ (acc : List Period) (q : Period),
      (q ∈ l.foldl
        (fun acc p =>
          if periods_overlap_with_hindu_day p hds hde = true ∧ p ∉ acc
          then acc ++ [p] else acc) acc) ↔
      q ∈ acc ∨ (q ∈ l ∧ periods_overlap_with_hindu_day q hds hde = true) := by
  induction l with
  | nil => intro acc q; simp
  | cons p rest ih =>
    intro acc q
    simp only [List.foldl_cons]
    by_cases h : periods_overlap_with_hindu_day p hds hde = true ∧ p ∉ acc
    · rw [if_pos h, ih (acc ++ [p]) q]
      simp only [List.mem_append, List.mem_cons, List.not_mem_nil, or_false]
      constructor
      · rintro ((hq | rfl) | ⟨hq, hov⟩)
        · exact Or.inl hq
        · exact Or.inr ⟨Or.inl rfl, h.1⟩
        · exact Or.inr ⟨Or.inr hq, hov⟩
      · rintro (hq | ⟨rfl | hq, hov⟩)
        · exact Or.inl (Or.inl hq)
        · exact Or.inl (Or.inr rfl)
        · exact Or.inr ⟨hq, hov⟩
    · rw [if_neg h, ih acc q]
      push_neg at h
      simp only [List.mem_cons]
      constructor
      · rintro (hq | ⟨hq, hov⟩)
        · exact Or.inl hq
        · exact Or.inr ⟨Or.inr hq, hov⟩
      · rintro (hq | ⟨rfl | hq, hov⟩)
        · exact Or.inl hq
        · exact Or.inl (h hov)
        · exact Or.inr ⟨hq, hov⟩

theorem collect_nodup (hds hde : ℚ) (l : List Period) :
    ∀ acc : List Period, acc.Nodup →
      (l.foldl
        (fun acc p =>
          if periods_overlap_with_hindu_day p hds hde = true ∧ p ∉ acc
          then acc ++ [p] else acc) acc).Nodup := by
  induction l with
  | nil => intro acc h; simpa using h
  | cons p rest ih =>
    intro acc hacc
    simp only [List.foldl_cons]
    by_cases h : periods_overlap_with_hindu_day p hds hde = true ∧ p ∉ acc
    · rw [if_pos h]
      apply ih
      simp [List.nodup_append, hacc, h.2]
    · rw [if_neg h]
      exact ih acc hacc

/-- C6 (amended): for every candidate list and window, the list built by
`get_overlapping_periods` contains a period iff it is a candidate satisfying
`start < window.end ∧ end > window.start`, has no duplicate
`(name, start, end)` entries, and is sorted ascending by start; this is the
per-category list returned by the aggregator for every category, and for the
tithi category whenever at least one candidate overlaps — when none does,
the aggregator instead returns the single period recomputed at the requested
day, inserted without the overlap check. -/
theorem get_overlapping_periods_spec (candidates : List Period) (hds hde : ℚ) :
    (∀ q : Period, q ∈ get_overlapping_periods candidates hds hde ↔
      q ∈ candidates ∧ (q.start < hde ∧ q.end_ > hds)) ∧
    (get_overlapping_periods candidates hds hde).Nodup ∧
    List.Sorted (fun p q : Period => p.start ≤ q.start)
      (get_overlapping_periods candidates hds hde) ∧
    (∀ center : Period, get_overlapping_periods candidates hds hde ≠ [] →
      aggregate_tithis candidates center hds hde =
        get_overlapping_periods candidates hds hde) ∧
    (∀ center : Period, get_overlapping_periods candidates hds hde = [] →
      aggregate_tithis candidates center hds hde = [center]) := by
  haveI hterm : IsTrans Period (fun p q : Period => p.start ≤ q.start) :=
    ⟨fun _ _ _ h1 h2 => le_trans h1 h2⟩
  haveI htot : IsTotal Period (fun p q : Period => p.start ≤ q.start) :=
    ⟨fun p q => le_total p.start q.start⟩
  have hperm := List.perm_insertionSort
    (fun p q : Period => p.start ≤ q.start)
    (candidates.foldl
      (fun acc p =>
        if periods_overlap_with_hindu_day p hds hde = true ∧ p ∉ acc
        then acc ++ [p] else acc) [])
  refine ⟨?_, ?_, ?_, ?_, ?_⟩
  · intro q
    unfold get_overlapping_periods
    rw [hperm.mem_iff, collect_mem hds hde candidates [] q]
    simp [periods_overlap_with_hindu_day]
  · unfold get_overlapping_periods
    exact hperm.nodup_iff.mpr (collect_nodup hds hde candidates [] (by simp))
  · unfold get_overlapping_periods
    exact List.sorted_insertionSort _ _
  · intro center hne
    unfold aggregate_tithis
    rw [if_neg hne]
  · intro center hemp
    unfold aggregate_tithis
    rw [if_pos hemp]

/-- Witness for the amended C6: a single overlapping candidate; the tithi
aggregator returns exactly the filtered list. -/
theorem get_overlapping_periods_spec_witness :
    aggregate_tithis [⟨"Shukla Paksha Dwitiya", 1, 2⟩]
        ⟨"Shukla Paksha Dwitiya", 1, 2⟩ 0 10 =
      get_overlapping_periods [⟨"Shukla Paksha Dwitiya", 1, 2⟩] 0 10 :=
  (get_overlapping_periods_spec [⟨"Shukla Paksha Dwitiya", 1, 2⟩] 0 10).2.2.2.1
    ⟨"Shukla Paksha Dwitiya", 1, 2⟩
    (by norm_num [get_overlapping_periods, periods_overlap_with_hindu_day,
      List.insertionSort])

/-- C6 counterexample: when no tithi candidate overlaps the Hindu-day window,
the aggregator's fallback (hindu_calendar.py lines 814-823) returns the
unchecked recomputed period: with window `(10, 11)` and the sole candidate
period `(20, 21)`, the returned tithi list contains a period that does not
overlap the window, contradicting the claimed membership-iff-overlap. -/
theorem aggregator_tithi_overlap_cex :
    (⟨"Shukla Paksha Pratipada", 20, 21⟩ : Period) ∈
      aggregate_tithis [⟨"Shukla Paksha Pratipada", 20, 21⟩]
        ⟨"Shukla Paksha Pratipada", 20, 21⟩ 10 11 ∧
    ¬ ((⟨"Shukla Paksha Pratipada", 20, 21⟩ : Period).start < 11 ∧
       (⟨"Shukla Paksha Pratipada", 20, 21⟩ : Period).end_ > 10) := by
  constructor
  · norm_num [aggregate_tithis, get_overlapping_periods,
      periods_overlap_with_hindu_day, List.insertionSort]
  · norm_num

/-! ## Horizon crossing search (astronomical.py lines 81-189 and 286-331)

The altitude function is the external position-provider composition
(`calculate_body_altitude` at fixed body/latitude/longitude), abstracted as
`alt : ℚ → ℚ`. -/

/-- `binary_search_crossing` (astronomical.py lines 286-331): bisect until
the bracket is narrower than 1 second (`1/86400` day) or the iteration cap
(fuel, 20 in the source) runs out; return the midpoint. -/
def binary_search_crossing (alt : ℚ → ℚ) (thr : ℚ) (rising : Bool) :
    ℕ → ℚ → ℚ → ℚ
  | 0, s, e => (s + e) / 2
  | fuel + 1, s, e =>
    if e - s > 1 / 86400 then
      let m := (s + e) / 2
      let a := alt m
      if rising then
        if a < thr then binary_search_crossing alt thr rising fuel m e
        else binary_search_crossing alt thr rising fuel s m
      else
        if a > thr then binary_search_crossing alt thr rising fuel m e
        else binary_search_crossing alt thr rising fuel s m
    else (s + e) / 2

/-- Sign-change test of one coarse-scan step (astronomical.py lines 112-125):
rising needs `previous ≤ threshold < current`, setting needs
`previous ≥ threshold > current`. -/
def crossing_check (rising : Bool) (thr prevAlt curAlt : ℚ) : Bool :=
  if rising then decide (prevAlt ≤ thr) && decide (thr < curAlt)
  else decide (prevAlt ≥ thr) && decide (thr > curAlt)

/-- The scan loop of `find_sun_event` / `find_moon_event` from the second
sample on: `i` is the current sample index, the previous sample is carried,
and `fuel` counts the samples still to visit. -/
def scan_loop (alt : ℚ → ℚ) (thr : ℚ) (rising : Bool) (jd0 step : ℚ) :
    ℕ → ℕ → ℚ → ℚ → Option ℚ
  | 0, _, _, _ => none
  | fuel + 1, i, prevJd, prevAlt =>
    let jd := jd0 + (i : ℚ) * step
    let a := alt jd
    if crossing_check rising thr prevAlt a then
      some (binary_search_crossing alt thr rising 20 prevJd jd)
    else scan_loop alt thr rising jd0 step fuel (i + 1) jd a

/-- Coarse scan over `n` samples `jd0 + i·step`, `i = 0 .. n-1` (the first
pass of the Python loop only records the previous sample), bracketing the
first sign change and refining it by bisection; `none` when no sign change
occurs. -/
def find_event (alt : ℚ → ℚ) (thr : ℚ) (rising : Bool) (jd0 step : ℚ)
    (n : ℕ) : Option ℚ :=
  if n = 0 then none
  else scan_loop alt thr rising jd0 step (n - 1) 1 jd0 (alt jd0)

/-- `find_sun_event` (astronomical.py lines 81-134): 3-minute steps
(`1/(24·20)` day) over 1 day (480 samples) at threshold −0.833°. -/
def find_sun_event (alt : ℚ → ℚ) (jd_start : ℚ) (is_sunrise : Bool) :
    Option ℚ :=
  find_event alt (-0.833) is_sunrise jd_start (1 / (24 * 20)) 480

/-- `find_moon_event` (astronomical.py lines 136-189): 10-minute steps
(`1/(24·6)` day) over 2 days (288 samples) at threshold 0°. -/
def find_moon_event (alt : ℚ → ℚ) (jd_start : ℚ) (is_moonrise : Bool) :
    Option ℚ :=
  find_event alt 0 is_moonrise jd_start (1 / (24 * 6)) 288

/-- The scan finds a sign change between samples `i-1` and `i`. -/
def cross_at (alt : ℚ → ℚ) (thr : ℚ) (rising : Bool) (jd0 step : ℚ)
    (i : ℕ) : Prop :=
  crossing_check rising thr (alt (jd0 + ((i - 1 : ℕ) : ℚ) * step))
    (alt (jd0 + (i : ℚ) * step)) = true

theorem scan_loop_none_iff (alt : ℚ → ℚ) (thr : ℚ) (rising : Bool)
    (jd0 step : ℚ) :
    ∀ (fuel i : ℕ) (pj : ℚ), 1 ≤ i →
      pj = jd0 + ((i - 1 : ℕ) : ℚ) * step →
      (scan_loop alt thr rising jd0 step fuel i pj (alt pj) = none ↔
        ∀ j, i ≤ j → j < i + fuel → ¬ cross_at alt thr rising jd0 step j) := by
  intro fuel
  induction fuel with
  | zero =>
    intro i pj hi hpj
    constructor
    · intro _ j hj1 hj2 _
      omega
    · intro _
      simp [scan_loop]
  | succ fuel ih =>
    intro i pj hi hpj
    subst hpj
    simp only [scan_loop]
    by_cases h : crossing_check rising thr
        (alt (jd0 + ((i - 1 : ℕ) : ℚ) * step))
        (alt (jd0 + (i : ℚ) * step)) = true
    · rw [if_pos h]
      constructor
      · intro habs
        simp at habs
      · intro hall
        exact absurd h (hall i le_rfl (by omega))
    · rw [if_neg h]
      rw [ih (i + 1) (jd0 + (i : ℚ) * step) (by omega) (by norm_num)]
      constructor
      · intro hall j hj1 hj2
        rcases eq_or_lt_of_le hj1 with rfl | hlt
        · exact fun hc => h hc
        · exact hall j (by omega) (by omega)
      · intro hall j hj1 hj2
        exact hall j (by omega) (by omega)

theorem scan_loop_first (alt : ℚ → ℚ) (thr : ℚ) (rising : Bool)
    (jd0 step : ℚ) :
    ∀ (fuel i k : ℕ) (pj : ℚ), 1 ≤ i → i ≤ k → k < i + fuel →
      pj = jd0 + ((i - 1 : ℕ) : ℚ) * step →
      cross_at alt thr rising jd0 step k →
      (∀ j, i ≤ j → j < k → ¬ cross_at alt thr rising jd0 step j) →
      scan_loop alt thr rising jd0 step fuel i pj (alt pj) =
        some (binary_search_crossing alt thr rising 20
          (jd0 + ((k - 1 : ℕ) : ℚ) * step) (jd0 + (k : ℚ) * step)) := by
  intro fuel
  induction fuel with
  | zero =>
    intro i k pj hi hik hk
    omega
  | succ fuel ih =>
    intro i k pj hi hik hk hpj hcross hmin
    subst hpj
    simp only [scan_loop]
    rcases eq_or_lt_of_le hik with rfl | hlt
    · have hcross2 := hcross
      simp only [cross_at] at hcross2
      rw [if_pos hcross2]
    · have hnc : ¬ cross_at alt thr rising jd0 step i := hmin i le_rfl hlt
      simp only [cross_at] at hnc
      rw [if_neg hnc]
      exact ih (i + 1) k (jd0 + (i : ℚ) * step) (by omega) (by omega)
        (by omega) (by norm_num) hcross
        fun j hj1 hj2 => hmin j (by omega) hj2

/-- C8: the sun search (480 three-minute samples at threshold −0.833°) and
the moon search (288 ten-minute samples at threshold 0°) return `none`
exactly when no sign change of `altitude − threshold` in the requested
direction occurs between consecutive coarse samples; otherwise they return
the bisection refinement of the first bracketing sample pair. -/
theorem find_event_none_iff_and_first (alt : ℚ → ℚ) (jd_start : ℚ)
    (rising : Bool) :
    (find_sun_event alt jd_start rising = none ↔
      ∀ i, 1 ≤ i → i < 480 →
        ¬ cross_at alt (-0.833) rising jd_start (1 / (24 * 20)) i) ∧
    (∀ k, 1 ≤ k → k < 480 →
      cross_at alt (-0.833) rising jd_start (1 / (24 * 20)) k →
      (∀ j, 1 ≤ j → j < k →
        ¬ cross_at alt (-0.833) rising jd_start (1 / (24 * 20)) j) →
      find_sun_event alt jd_start rising =
        some (binary_search_crossing alt (-0.833) rising 20
          (jd_start + ((k - 1 : ℕ) : ℚ) * (1 / (24 * 20)))
          (jd_start + (k : ℚ) * (1 / (24 * 20))))) ∧
    (find_moon_event alt jd_start rising = none ↔
      ∀ i, 1 ≤ i → i < 288 →
        ¬ cross_at alt 0 rising jd_start (1 / (24 * 6)) i) ∧
    (∀ k, 1 ≤ k → k < 288 →
      cross_at alt 0 rising jd_start (1 / (24 * 6)) k →
      (∀ j, 1 ≤ j → j < k →
        ¬ cross_at alt 0 rising jd_start (1 / (24 * 6)) j) →
      find_moon_event alt jd_start rising =
        some (binary_search_crossing alt 0 rising 20
          (jd_start + ((k - 1 : ℕ) : ℚ) * (1 / (24 * 6)))
          (jd_start + (k : ℚ) * (1 / (24 * 6))))) := by
  have hsun : find_sun_event alt jd_start rising =
      scan_loop alt (-0.833) rising jd_start (1 / (24 * 20)) 479 1 jd_start
        (alt jd_start) := by
    simp [find_sun_event, find_event]
  have hmoon : find_moon_event alt jd_start rising =
      scan_loop alt 0 rising jd_start (1 / (24 * 6)) 287 1 jd_start
        (alt jd_start) := by
    simp [find_moon_event, find_event]
  refine ⟨?_, ?_, ?_, ?_⟩
  · rw [hsun, scan_loop_none_iff alt (-0.833) rising jd_start (1 / (24 * 20))
      479 1 jd_start le_rfl (by norm_num)]
  · intro k h1 h2 hc hmin
    rw [hsun]
    exact scan_loop_first alt (-0.833) rising jd_start (1 / (24 * 20)) 479 1 k
      jd_start le_rfl h1 (by omega) (by norm_num) hc
      fun j hj1 hj2 => hmin j hj1 hj2
  · rw [hmoon, scan_loop_none_iff alt 0 rising jd_start (1 / (24 * 6))
      287 1 jd_start le_rfl (by norm_num)]
  · intro k h1 h2 hc hmin
    rw [hmoon]
    exact scan_loop_first alt 0 rising jd_start (1 / (24 * 6)) 287 1 k
      jd_start le_rfl h1 (by omega) (by norm_num) hc
      fun j hj1 hj2 => hmin j hj1 hj2

/-- Witness for C8: a linear altitude `1000·t − 1` crosses the sun threshold
−0.833° between the first two samples, so the search returns the bisection
refinement of that first pair. -/
theorem find_event_none_iff_and_first_witness :
    find_sun_event (fun t => 1000 * t - 1) 0 true =
      some (binary_search_crossing (fun t => 1000 * t - 1) (-0.833) true 20
        (0 + ((1 - 1 : ℕ) : ℚ) * (1 / (24 * 20)))
        (0 + ((1 : ℕ) : ℚ) * (1 / (24 * 20)))) :=
  (find_event_none_iff_and_first (fun t => 1000 * t - 1) 0 true).2.1 1
    le_rfl (by norm_num)
    (by norm_num [cross_at, crossing_check])
    (fun j hj1 hj2 => absurd (lt_of_le_of_lt hj1 hj2) (lt_irrefl 1))

/-! ## Tithi / Yoga calculation cores (hindu_calendar.py lines 87-170 and
468-562)

The ephemeris-dependent inputs (sunrise JD, angle at sunrise, interpolation
samples, next-day angle) are parameters; instants stay as JD values in `ℚ`
(the `datetime` rendering of lines 276-299 is presentation only).  The
returned dictionary `{name, start, end}` is a `Period`. -/

/-- `TITHI_NAMES` (constants.py lines 6-13). -/
def TITHI_NAMES : List String :=
  ["Pratipada", "Dwitiya", "Tritiya", "Chaturthi", "Panchami",
   "Shashthi", "Saptami", "Ashtami", "Navami", "Dashami",
   "Ekadashi", "Dwadashi", "Trayodashi", "Chaturdashi", "Purnima",
   "Pratipada", "Dwitiya", "Tritiya", "Chaturthi", "Panchami",
   "Shashthi", "Saptami", "Ashtami", "Navami", "Dashami",
   "Ekadashi", "Dwadashi", "Trayodashi", "Chaturdashi", "Amavasya"]

/-- `YOGA_NAMES` (constants.py lines 35-42). -/
def YOGA_NAMES : List String :=
  ["Vishkambha", "Priti", "Ayushman", "Saubhagya", "Shobhana",
   "Atiganda", "Sukarman", "Dhriti", "Shula", "Ganda",
   "Vriddhi", "Dhruva", "Vyaghata", "Harshana", "Vajra",
   "Siddhi", "Vyatipata", "Variyan", "Parigha", "Shiva",
   "Siddha", "Sadhya", "Shubha", "Shukla", "Brahma",
   "Indra", "Vaidhriti"]

/-- `calculate_tithi` steps 2-5 (hindu_calendar.py lines 116-160):
`moon_phase_tmrw` is `lunar_phase(rise_jd + 1)`, read only by the `isSkipped`
computation of line 135, which the function then drops. -/
def calculate_tithi_core (jd rise_jd tz moon_phase : ℚ) (y : List ℚ)
    (moon_phase_tmrw : ℚ) : Period :=
  let today := ⌈moon_phase / 12⌉
  let degrees_left := (today : ℚ) * 12 - moon_phase
  let x : List ℚ := [0.25, 0.5, 0.75, 1.0]
  let approx_end := inverse_lagrange x y degrees_left
  let ends_hours := (rise_jd + approx_end - jd) * 24 + tz
  let tomorrow := ⌈moon_phase_tmrw / 12⌉
  let isSkipped := (tomorrow - today) % 30 > 1
  let end_time := jd + ends_hours / 24
  let prev_today := (today - 2) % 30 + 1
  let prev_degrees_left := (prev_today : ℚ) * 12 - moon_phase
  let prev_approx_end := inverse_lagrange x y prev_degrees_left
  let start_hours := (rise_jd + prev_approx_end - jd) * 24 + tz
  let start_time := jd + start_hours / 24
  let paksha : ℤ := if today ≤ 15 then 0 else 1
  let tithi_index := ((today - 1) % 15).toNat
  let namePart := if paksha = 0 then "Shukla Paksha " else "Krishna Paksha "
  { name := namePart ++ TITHI_NAMES.getD tithi_index "",
    start := start_time, end_ := end_time }

/-- `calculate_yoga` steps 2-6 (hindu_calendar.py lines 496-552):
`total_tmrw` is the next-day combination angle of lines 522-524, read only
by the `isSkipped` computation of line 526, which the function then drops. -/
def calculate_yoga_core (jd rise_jd tz total : ℚ) (y : List ℚ)
    (total_tmrw : ℚ) : Period :=
  let yog0 := ⌈total * 27 / 360⌉
  let yog := if yog0 > 27 then 1 else yog0
  let degrees_left := (yog : ℚ) * (360 / 27) - total
  let x : List ℚ := [0.25, 0.5, 0.75, 1.0]
  let approx_end := inverse_lagrange x y degrees_left
  let ends_hours := (rise_jd + approx_end - jd) * 24 + tz
  let tomorrow := ⌈total_tmrw * 27 / 360⌉
  let isSkipped := (tomorrow - yog) % 27 > 1
  let end_time := jd + ends_hours / 24
  let prev_yog := (yog - 2) % 27 + 1
  let prev_degrees_left := (prev_yog : ℚ) * (360 / 27) - total
  let prev_approx_end := inverse_lagrange x y prev_degrees_left
  let start_hours := (rise_jd + prev_approx_end - jd) * 24 + tz
  let start_time := jd + start_hours / 24
  { name := YOGA_NAMES.getD ((yog - 1) % 27).toNat "",
    start := start_time, end_ := end_time }

/-- C3: the skip condition computed from the next-day element index is never
attached to the returned result: the tithi and yoga results are literally
independent of the next-day angles that alone determine `isSkipped` (the
returned `{name, start, end}` record carries no flag), so a detected skip is
silently dropped rather than reported. -/
theorem skip_flag_dropped (jd rise_jd tz phase total : ℚ) (y1 y2 : List ℚ)
    (p1 p2 q1 q2 : ℚ) :
    calculate_tithi_core jd rise_jd tz phase y1 p1 =
      calculate_tithi_core jd rise_jd tz phase y1 p2 ∧
    calculate_yoga_core jd rise_jd tz total y2 q1 =
      calculate_yoga_core jd rise_jd tz total y2 q2 :=
  ⟨rfl, rfl⟩

/-! ## Degenerate interpolation (hindu_calendar.py lines 30-43 and 162-170)

Two equal `y` samples make some `denom` zero; Python raises
`ZeroDivisionError`, modelled as `none`.  The blanket `except` of
`calculate_tithi` (lines 162-170) turns any such failure into the fixed
default `{"Shukla Paksha Pratipada", now, now + 24h}`. -/

/-- `inverse_lagrange` with the zero-denominator failure made explicit:
`none` models the `ZeroDivisionError` raised when two samples coincide. -/
def inverse_lagrange_checked (x y : List ℚ) (ya : ℚ) : Option ℚ :=
  if ∃ i ∈ Finset.range x.length,
      (∏ j ∈ (Finset.range x.length).erase i, (y.getD i 0 - y.getD j 0)) = 0
  then none
  else some (inverse_lagrange x y ya)

/-- `calculate_tithi` with the checked interpolation: a raised
`ZeroDivisionError` propagates to the handler of lines 162-170, which
returns the fixed default (name `"Shukla Paksha Pratipada"`, start `now`,
end `now + 1` day), not a constant-rate estimate. -/
def calculate_tithi_checked (jd rise_jd tz moon_phase : ℚ) (y : List ℚ)
    (moon_phase_tmrw now : ℚ) : Period :=
  let today := ⌈moon_phase / 12⌉
  let degrees_left := (today : ℚ) * 12 - moon_phase
  let x : List ℚ := [0.25, 0.5, 0.75, 1.0]
  match inverse_lagrange_checked x y degrees_left with
  | none => { name := "Shukla Paksha Pratipada", start := now, end_ := now + 1 }
  | some approx_end =>
    let prev_today := (today - 2) % 30 + 1
    let prev_degrees_left := (prev_today : ℚ) * 12 - moon_phase
    match inverse_lagrange_checked x y prev_degrees_left with
    | none =>
      { name := "Shukla Paksha Pratipada", start := now, end_ := now + 1 }
    | some prev_approx_end =>
      let ends_hours := (rise_jd + approx_end - jd) * 24 + tz
      let start_hours := (rise_jd + prev_approx_end - jd) * 24 + tz
      let paksha : ℤ := if today ≤ 15 then 0 else 1
      let namePart :=
        if paksha = 0 then "Shukla Paksha " else "Krishna Paksha "
      { name := namePart ++ TITHI_NAMES.getD ((today - 1) % 15).toNat "",
        start := jd + start_hours / 24, end_ := jd + ends_hours / 24 }

theorem inverse_lagrange_checked_dup_none (y : List ℚ)
    (hlen : y.length = 4) (hdup : y.getD 0 0 = y.getD 1 0) :
    ∀ ya : ℚ, inverse_lagrange_checked [0.25, 0.5, 0.75, 1.0] y ya = none := by
  intro ya
  unfold inverse_lagrange_checked
  rw [if_pos]
  refine ⟨0, by decide, ?_⟩
  refine Finset.prod_eq_zero (i := 1) (by decide) ?_
  rw [hdup]
  ring

/-- C4 counterexample: with sample angles `[10, 10, 20, 30]` (two equal
samples) the projection does not recover with any value — the division by
zero aborts it (`none`) — and `calculate_tithi`'s handler then returns the
same fixed 24-hour default for these samples as for the twice-as-fast
samples `[20, 20, 40, 60]`: no constant-rate estimate from the nearest
valid pair is computed. -/
theorem degenerate_interpolation_cex :
    inverse_lagrange_checked [0.25, 0.5, 0.75, 1.0] [10, 10, 20, 30] 25 = none ∧
    calculate_tithi_checked 0 0 0 5 [10, 10, 20, 30] 0 7 =
      { name := "Shukla Paksha Pratipada", start := 7, end_ := 8 } ∧
    calculate_tithi_checked 0 0 0 5 [20, 20, 40, 60] 0 7 =
      { name := "Shukla Paksha Pratipada", start := 7, end_ := 8 } := by
  have h1 := inverse_lagrange_checked_dup_none [10, 10, 20, 30] rfl (by norm_num)
  have h2 := inverse_lagrange_checked_dup_none [20, 20, 40, 60] rfl (by norm_num)
  refine ⟨h1 25, ?_, ?_⟩
  · simp only [calculate_tithi_checked, h1]
    norm_num
  · simp only [calculate_tithi_checked, h2]
    norm_num

/-! ## Sunrise fallback (hindu_calendar.py lines 172-212 and 645-660)

`calculate_sunrise_sunset` yields `"No Rise"` when `find_sun_event` finds no
crossing; a parsed `HH:MM` time is modelled as `some (hours, minutes)` and an
unparseable string as `none`. -/

/-- `to_dms` (hindu_calendar.py lines 245-251); its inputs here are
nonnegative, where Python `int()` is the floor. -/
def to_dms (deg : ℚ) : List ℤ :=
  let d := ⌊deg⌋
  let mins := (deg - d) * 60
  let m := ⌊mins⌋
  let s := round ((mins - m) * 60)
  [d, m, s]

/-- `calculate_sunrise_for_panchang` (hindu_calendar.py lines 172-212): an
unparseable sunrise falls back to `hours, minutes = 6, 0` (line 198), and
the exception path returns `(jd + 0.25, [6, 0, 0])` (line 212) — the same
fabricated 6 AM value. -/
def calculate_sunrise_for_panchang (jd : ℚ)
    (sunriseParsed : Option (ℕ × ℕ)) : ℚ × List ℤ :=
  match sunriseParsed with
  | some (h, m) =>
    let sunrise_hour : ℚ := (h : ℚ) + (m : ℚ) / 60
    (jd + sunrise_hour / 24, to_dms sunrise_hour)
  | none => (jd + (6 : ℚ) / 24, to_dms 6)

/-- `parse_time_to_datetime` fallback (hindu_calendar.py lines 645-660): an
unparseable time becomes the fixed 6:10. -/
def parse_time_to_datetime (t : Option (ℕ × ℕ)) : ℕ × ℕ :=
  match t with
  | some (h, m) => (h, m)
  | none => (6, 10)

/-- C5: when no sunrise can be resolved (the solver returned no crossing and
the time string is unparseable), the pipeline fabricates defaults instead of
returning an explicit no-window outcome: `calculate_sunrise_for_panchang`
returns the 6 AM instant `jd + 1/4` with DMS `[6, 0, 0]` as if computed, and
the aggregator's window parser substitutes the fixed 6:10. -/
theorem sunrise_fallback_fabricates_default (jd : ℚ) :
    calculate_sunrise_for_panchang jd none = (jd + 1/4, [6, 0, 0]) ∧
    parse_time_to_datetime none = (6, 10) := by
  constructor
  · simp only [calculate_sunrise_for_panchang, to_dms]
    norm_num
  · rfl

/-! ## Body altitude (astronomical.py lines 191-284)

This part of the source is transcendental (`math.sin`, `math.asin`,
`math.atan2`), so it is modelled over `ℝ`.  The position-provider results
(`swe.calc_ut`, `swe.sidtime`) are a parameter record; `none` models both
the `if not result` branch (line 207) and the exception handler (line 252),
each of which returns `-90.0`. -/

noncomputable section

/-- `math.radians`. -/
def radians (d : ℝ) : ℝ := d * Real.pi / 180

/-- `math.degrees`. -/
def degrees (r : ℝ) : ℝ := r * 180 / Real.pi

/-- `math.atan2 y x` (quadrant-correct arctangent). -/
def atan2 (y x : ℝ) : ℝ :=
  if 0 < x then Real.arctan (y / x)
  else if x < 0 ∧ 0 ≤ y then Real.arctan (y / x) + Real.pi
  else if x < 0 ∧ y < 0 then Real.arctan (y / x) - Real.pi
  else if x = 0 ∧ 0 < y then Real.pi / 2
  else if x = 0 ∧ y < 0 then -(Real.pi / 2)
  else 0

/-- `ecliptic_to_equatorial` (astronomical.py lines 254-284). -/
def ecliptic_to_equatorial (ecliptic_lon ecliptic_lat obliquity : ℝ) :
    ℝ × ℝ :=
  let lon_rad := radians ecliptic_lon
  let lat_rad := radians ecliptic_lat
  let obl_rad := radians obliquity
  let sin_ra := Real.sin lon_rad * Real.cos obl_rad -
    Real.tan lat_rad * Real.sin obl_rad
  let cos_ra := Real.cos lon_rad
  let ra0 := degrees (atan2 sin_ra cos_ra)
  let ra := if ra0 < 0 then ra0 + 360 else ra0
  let sin_dec := Real.sin lat_rad * Real.cos obl_rad +
    Real.cos lat_rad * Real.sin obl_rad * Real.sin lon_rad
  let dec := degrees (Real.arcsin sin_dec)
  (ra, dec)

/-- First `while` loop of the hour-angle normalization (astronomical.py
lines 230-231): subtract 360 while above 180.  The loop runs
`⌈(x - 180)/360⌉` times, the least count bringing the value to 180 or
below. -/
def reduceDown (x : ℝ) : ℝ :=
  if 180 < x then x - 360 * ⌈(x - 180) / 360⌉ else x

/-- Second `while` loop (astronomical.py lines 232-233): add 360 while below
−180, i.e. `⌈(-180 - x)/360⌉` times. -/
def reduceUp (x : ℝ) : ℝ :=
  if x < -180 then x + 360 * ⌈(-180 - x) / 360⌉ else x

/-- Hour-angle normalization to `[-180, 180]` (astronomical.py lines
229-233). -/
def normalize_hour_angle (x : ℝ) : ℝ := reduceUp (reduceDown x)

/-- The clamp of line 245: `max(-1.0, min(1.0, sin_alt))`. -/
def clamp_sin (s : ℝ) : ℝ := max (-1) (min 1 s)

/-- Provider outputs consumed by `calculate_body_altitude`: ecliptic
longitude/latitude of the body (lines 211-212), obliquity (line 215) and
sidereal time in hours (line 221). -/
structure BodyPosition where
  eclLon : ℝ
  eclLat : ℝ
  obliquity : ℝ
  sidtime : ℝ

/-- `calculate_body_altitude` (astronomical.py lines 191-252): `-90` on
every failure path, otherwise the spherical-trigonometry altitude with the
sine clamped before `asin`. -/
def calculate_body_altitude (pos : Option BodyPosition)
    (latitude longitude : ℝ) : ℝ :=
  match pos with
  | none => -90
  | some p =>
    let radec := ecliptic_to_equatorial p.eclLon p.eclLat p.obliquity
    let ra := radec.1
    let dec := radec.2
    let gmst := p.sidtime * 15
    let lst := gmst + longitude
    let hour_angle := normalize_hour_angle (lst - ra)
    let lat_rad := radians latitude
    let dec_rad := radians dec
    let ha_rad := radians hour_angle
    let sin_alt := Real.sin lat_rad * Real.sin dec_rad +
      Real.cos lat_rad * Real.cos dec_rad * Real.cos ha_rad
    degrees (Real.arcsin (clamp_sin sin_alt))

end

theorem degrees_arcsin_bounds (c : ℝ) :
    -90 ≤ degrees (Real.arcsin c) ∧ degrees (Real.arcsin c) ≤ 90 := by
  have hpi := Real.pi_pos
  have h1 := Real.arcsin_le_pi_div_two c
  have h2 := Real.neg_pi_div_two_le_arcsin c
  unfold degrees
  constructor
  · rw [le_div_iff hpi]
    nlinarith
  · rw [div_le_iff hpi]
    nlinarith

/-- C10: `calculate_body_altitude` is total and always lands in
`[-90, 90]` degrees: the clamp keeps the sine of the altitude inside
`[-1, 1]` (so the `asin` domain-error branch is unreachable), every failure
path returns `-90`, and the arcsine of the clamped value converted to
degrees lies within a quarter turn. -/
theorem calculate_body_altitude_total_in_range :
    (∀ s : ℝ, -1 ≤ clamp_sin s ∧ clamp_sin s ≤ 1) ∧
    (∀ (pos : Option BodyPosition) (latitude longitude : ℝ),
      -90 ≤ calculate_body_altitude pos latitude longitude ∧
      calculate_body_altitude pos latitude longitude ≤ 90) := by
  constructor
  · intro s
    constructor
    · exact le_max_left _ _
    · exact max_le (by norm_num) (min_le_left _ _)
  · intro pos latitude longitude
    match pos with
    | none =>
      constructor <;> norm_num [calculate_body_altitude]
    | some p =>
      simp only [calculate_body_altitude]
      exact degrees_arcsin_bounds _
